import Mathlib

/-!
Verification of the cheminformatics repository fragment:
a shallow embedding of the dataset CSV loaders
(cuchem/cuchem/datasets/molecules_properties.py) and of the pipeline
record manager (chemportal/cuchemportal/pipeline/pipeline_manager.py),
together with theorems settling the specification claims.

Dataframes are modelled as an index column (one cell per row) plus named
value columns; fallible dataframe operations (missing columns, missing
selection keys, length of a non-string cell) return Option.  Optional
parameters of the Python code are modelled as Option values, and the
code tests them by Python truthiness (None, the empty string and the
empty list are falsy), which the embedding mirrors.
-/

namespace ChemInf

/-- A dataframe cell: the files hold SMILES strings and numeric values. -/
inductive Cell where
  | str (s : String)
  | num (n : Int)
deriving DecidableEq

/-- Comparison used for sorting an index and for column maxima.
Numeric cells compare numerically, string cells lexicographically;
a homogeneous column (the only case the source exercises) never
compares across the two constructors. -/
def cellLe : Cell → Cell → Bool
  | .num a, .num b => decide (a ≤ b)
  | .str a, .str b => decide (a ≤ b)
  | .num _, .str _ => true
  | .str _, .num _ => false

/-- A raw CSV file: a header row of column names and data rows of cells. -/
structure CSV where
  header : List String
  rows : List (List Cell)
deriving DecidableEq

/-- An in-memory dataframe: a named row index (one cell per row) and
named value columns (one list of cells per row, aligned with colNames). -/
structure DataFrame where
  indexName : Option String
  colNames : List String
  rows : List (Cell × List Cell)
deriving DecidableEq

/-- The list of index values of a dataframe, in row order. -/
def rowIndex (df : DataFrame) : List Cell := df.rows.map (fun r => r.1)

/-- Python truthiness of an optional string: None and the empty string are falsy. -/
def truthyS : Option String → Bool
  | none => false
  | some s => !(s == "")

/-- Python truthiness of an optional list: None and the empty list are falsy. -/
def truthyL : Option (List Cell) → Bool
  | none => false
  | some l => !(l.isEmpty)

/-- An optional string parameter as the code effectively uses it:
a falsy value (None or the empty string) acts as absent. -/
def effectiveOpt (o : Option String) : Option String :=
  if truthyS o then o else none

/-- Models the default index assigned by read_csv plus the
`data.index.name = "index"` branch of _load_csv: consecutive integers
starting at 0, with the index labeled "index". -/
def defaultIndex (file : CSV) : DataFrame :=
  ⟨some "index", file.header, file.rows.enum.map (fun p => (Cell.num p.1, p.2))⟩

/-- Maps a fallible function over a list, failing when any element
fails (the traversal underlying each dataframe operation). -/
def mapOrFail (f : α → Option β) : List α → Option (List β)
  | [] => some []
  | a :: l => (f a).bind (fun b => (mapOrFail f l).map (fun bs => b :: bs))

/-- Models `data.set_index(c)`: the column named c becomes the row index
and is removed from the value columns; a missing column is an error. -/
def setIndex (file : CSV) (c : String) : Option DataFrame := do
  let i ← file.header.findIdx? (· == c)
  let rows ← mapOrFail (fun r => (r[i]?).map (fun v => (v, r.eraseIdx i))) file.rows
  pure ⟨some c, file.header.eraseIdx i, rows⟩

/-- Ordering of dataframe rows by their index cell. -/
def keyLe (a b : Cell × List Cell) : Prop := cellLe a.1 b.1 = true

instance : DecidableRel keyLe := fun a b => by
  unfold keyLe; infer_instance

/-- Ordering of index cells as a relation. -/
def cellLeR (a b : Cell) : Prop := cellLe a b = true

instance : DecidableRel cellLeR := fun a b => by
  unfold cellLeR; infer_instance

/-- Models `data.sort_index()`: sorts the rows by their index cell ascending. -/
def sortRows (df : DataFrame) : DataFrame :=
  { df with rows := List.insertionSort keyLe df.rows }

/-- The indexing phase of _load_csv: `if self.index_col:` set_index and
sort_index, else label the default index "index".  The truthiness test
means an empty-string index_col takes the default branch. -/
def indexedBase (file : CSV) (idxCol : Option String) : Option DataFrame :=
  match idxCol with
  | some c => if c = "" then some (defaultIndex file) else (setIndex file c).map sortRows
  | none => some (defaultIndex file)

/-- Models `data.loc[sel]` for a list of index keys: for each key, all
rows carrying that index value, in key order; a key matching no row is
an error. -/
def locSelect (df : DataFrame) (sel : List Cell) : Option DataFrame := do
  let groups ← mapOrFail (fun s =>
    let m := df.rows.filter (fun r => r.1 == s)
    if m.isEmpty then none else some m) sel
  pure { df with rows := groups.flatten }

/-- The indexing plus row-selection phase of _load_csv:
`if self.index_selection: data = data.loc[self.index_selection]`.
The truthiness test means an empty selection list selects nothing away. -/
def indexedData (file : CSV) (idxCol : Option String) (idxSel : Option (List Cell)) :
    Option DataFrame := do
  let df ← indexedBase file idxCol
  match idxSel with
  | some sel => if sel.isEmpty then pure df else locSelect df sel
  | none => pure df

/-- Models `data[c]` for a single column name: the list of that column's
cells in row order; a missing column is an error. -/
def getColumn (df : DataFrame) (c : String) : Option (List Cell) := do
  let i ← df.colNames.findIdx? (· == c)
  mapOrFail (fun r => r.2[i]?) df.rows

/-- Models `data[cs]` for a list of column names: the sub-dataframe with
exactly those columns in the requested order, same index; a missing
column is an error. -/
def selectColumns (df : DataFrame) (cs : List String) : Option DataFrame := do
  let idxs ← mapOrFail (fun c => df.colNames.findIdx? (· == c)) cs
  let rows ← mapOrFail (fun r =>
    (mapOrFail (fun i => r.2[i]?) idxs).map (fun vals => (r.1, vals))) df.rows
  pure ⟨df.indexName, cs, rows⟩

/-- Models `df.rename(columns=m)`: every column name is mapped through m,
names not in m are kept; rows and index are untouched. -/
def renameColumns (df : DataFrame) (m : List (String × String)) : DataFrame :=
  { df with colNames := df.colNames.map (fun c => ((m.lookup c).getD c)) }

/-- Models `series.max()` over a column of cells: None for an empty
column (NaN in the source), otherwise the fold of the pairwise maximum. -/
def cellListMax (l : List Cell) : Option Cell :=
  l.foldl (fun acc x =>
    match acc with
    | none => some x
    | some a => some (if cellLe a x then x else a)) none

/-- Models `series.max()` over a column of string lengths. -/
def natListMax (l : List Nat) : Option Nat :=
  l.foldl (fun acc x =>
    match acc with
    | none => some x
    | some a => some (max a x)) none

/-- Models Python `len` applied to a cell: defined on strings only,
an error (TypeError) on a numeric cell. -/
def strLen : Cell → Option Nat
  | .str s => some s.length
  | .num _ => none

/-- Whether _load_csv assigns self.max_len, and the assigned value.
keep models the fall-through case (no length column, not exactly one
primary column) in which the attribute is left untouched; setTo v models
an assignment, where v = none is NaN (max of an empty column). -/
inductive MaxUpdate where
  | keep
  | setTo (v : Option Cell)
deriving DecidableEq

/-- The max_len computation of _load_csv:
`if length_column: max_len = data[length_column].max()`
`elif len(columns) == 1: max_len = data[columns[0]].to_pandas().map(len).max()`
with no else branch. -/
def computeMaxLen (df : DataFrame) (columns : List String) (lengthCol : Option String) :
    Option MaxUpdate :=
  if truthyS lengthCol then
    match lengthCol with
    | some lc => (getColumn df lc).bind fun vals => some (.setTo (cellListMax vals))
    | none => none
  else if columns.length = 1 then
    (columns[0]?).bind fun c0 =>
    (getColumn df c0).bind fun vals =>
    (mapOrFail strLen vals).bind fun lens =>
    some (.setTo ((natListMax lens).map (fun n => Cell.num (Int.ofNat n))))
  else
    some .keep

/-- The remaining-column computation of _load_csv:
`if length_column: remain = [x for x in data.columns if x not in columns and x not in [length_column]]`
`else: remain = [x for x in data.columns if x not in columns]`. -/
def remainColumns (dfCols : List String) (columns : List String) (lengthCol : Option String) :
    List String :=
  match lengthCol with
  | some lc =>
      if lc = "" then dfCols.filter (fun x => !(columns.contains x))
      else dfCols.filter (fun x => !(columns.contains x) && !(x == lc))
  | none => dfCols.filter (fun x => !(columns.contains x))

/-- GenericCSVDataset._load_csv as a pure function of the file contents
and the relevant instance configuration.  Returns the cleaned primary
dataframe, the optional remaining dataframe (None when return_remaining
is false), and the max_len assignment. -/
def load_csv (file : CSV) (idxCol : Option String) (idxSel : Option (List Cell))
    (columns : List String) (lengthCol : Option String) (returnRemaining : Bool) :
    Option (DataFrame × Option DataFrame × MaxUpdate) :=
  (indexedData file idxCol idxSel).bind fun df =>
  (computeMaxLen df columns lengthCol).bind fun mu =>
  (selectColumns df columns).bind fun cleaned =>
  (if returnRemaining then
      (selectColumns df (remainColumns df.colNames columns lengthCol)).map some
    else
      some (none : Option DataFrame)).bind fun other =>
  some (cleaned, other, mu)

/-- The name attribute of a descriptor.  The subclass constructors pass
their collected kwargs dict positionally as the name parameter of the
base constructor, so the attribute can transiently hold a dict. -/
inductive PyName where
  | pyNone
  | str (s : String)
  | dict (kw : List (String × Cell))
deriving DecidableEq

/-- The mutable state of a GenericCSVDataset instance.  table_name is
Option because the base class never sets it; max_len distinguishes the
initial None (outer none) from an assigned value (some v, where v = none
models NaN). -/
structure Dataset where
  name : PyName
  table_name : Option String
  data_path : Option String
  data : Option DataFrame
  max_len : Option (Option Cell)
  properties : Option DataFrame
  properties_cols : Option (List String)
  index_col : Option String
  index_selection : Option (List Cell)
deriving DecidableEq

/-- GenericCSVDataset.__init__. -/
def GenericCSVDataset.init (name : PyName) (properties_cols : Option (List String))
    (index_col : Option String) (index_selection : Option (List Cell))
    (data_path : Option String) : Dataset :=
  { name := name
    table_name := none
    data_path := data_path
    data := none
    max_len := none
    properties := none
    properties_cols := properties_cols
    index_col := index_col
    index_selection := index_selection }

/-- Applies a MaxUpdate to the instance state (the self.max_len writes
inside _load_csv). -/
def applyMaxUpdate (s : Dataset) (mu : MaxUpdate) : Dataset :=
  match mu with
  | .keep => s
  | .setTo v => { s with max_len := some v }

/-- GenericCSVDataset._load_csv as a method: runs the pure loader on the
instance configuration and records the max_len side effect on self. -/
def GenericCSVDataset.loadCsv (file : CSV) (s : Dataset) (columns : List String)
    (lengthCol : Option String) (returnRemaining : Bool) :
    Option (Dataset × DataFrame × Option DataFrame) :=
  (load_csv file s.index_col s.index_selection columns lengthCol returnRemaining).bind
    fun t =>
      match t with
      | (cleaned, other, mu) => some (applyMaxUpdate s mu, cleaned, other)

/-- The shared body shape of GenericCSVDataset.load and
ZINC15TestSplit.load: `self.data, _ = self._load_csv(columns, length_column, ...)`. -/
def simpleCsvLoad (file : CSV) (s : Dataset) (columns : List String)
    (lengthCol : Option String) (returnRemaining : Bool) : Option Dataset :=
  (GenericCSVDataset.loadCsv file s columns lengthCol returnRemaining).bind fun t =>
    match t with
    | (s1, cleaned, _) => some { s1 with data := some cleaned }

/-- GenericCSVDataset.load with its default arguments
columns=["canonical_smiles"], length_column="length". -/
def GenericCSVDataset.load (file : CSV) (s : Dataset) : Option Dataset :=
  simpleCsvLoad file s ["canonical_smiles"] (some "length") true

/-- ChEMBLApprovedDrugsPhyschem.load: loads with no length column,
then properties = remaining[self.properties_cols]. -/
def ChEMBLApprovedDrugsPhyschem.load (file : CSV) (s : Dataset) (columns : List String) :
    Option Dataset :=
  (GenericCSVDataset.loadCsv file s columns none true).bind fun t =>
    match t with
    | (s1, d, props) =>
      match props, s1.properties_cols with
      | some p, some pc =>
          (selectColumns p pc).bind fun p2 =>
          some { s1 with data := some d, properties := some p2 }
      | _, _ => none

/-- The shared body shape of the three renaming loads (Lipophilicity,
ESOL, FreeSolv): load with no length column, rename the first requested
column to canonical_smiles, rename the source property columns to the
canonical properties_cols via zip, then subset to properties_cols. -/
def renamingLoad (origPropertyName : List String) (file : CSV) (s : Dataset)
    (columns : List String) : Option Dataset :=
  (GenericCSVDataset.loadCsv file s columns none true).bind fun t =>
    match t with
    | (s1, d, props) =>
      (columns[0]?).bind fun c0 =>
      let d2 := renameColumns d [(c0, "canonical_smiles")]
      match props, s1.properties_cols with
      | some p, some pc =>
          let p2 := renameColumns p (origPropertyName.zip pc)
          (selectColumns p2 pc).bind fun p3 =>
          some { s1 with data := some d2, properties := some p3 }
      | _, _ => none

/-- MoleculeNetLipophilicityPhyschem.load with its default columns. -/
def MoleculeNetLipophilicityPhyschem.load (file : CSV) (s : Dataset) : Option Dataset :=
  renamingLoad ["exp"] file s ["smiles"]

/-- MoleculeNetESOLPhyschem.load with its default columns. -/
def MoleculeNetESOLPhyschem.load (file : CSV) (s : Dataset) : Option Dataset :=
  renamingLoad ["measured log solubility in mols per litre"] file s ["smiles"]

/-- MoleculeNetFreeSolvPhyschem.load with its default columns. -/
def MoleculeNetFreeSolvPhyschem.load (file : CSV) (s : Dataset) : Option Dataset :=
  renamingLoad ["y"] file s ["smiles"]

/-- ZINC15TestSplit.load with its default arguments:
return_remaining=False, so the companion dataframe is discarded. -/
def ZINC15TestSplit.load (file : CSV) (s : Dataset) : Option Dataset :=
  simpleCsvLoad file s ["canonical_smiles"] (some "length") false

/-- The dataset descriptor classes of the module: the five variants of
the __all__ export list plus the deprecated ChEMBL20KSamples. -/
inductive Variant where
  | chembl
  | lipophilicity
  | esol
  | freesolv
  | zinc15
  | chembl20k
deriving DecidableEq

/-- The five non-deprecated variants, in source order. -/
def nonDeprecatedVariants : List Variant :=
  [.chembl, .lipophilicity, .esol, .freesolv, .zinc15]

/-- The hard-coded properties_cols of ChEMBLApprovedDrugsPhyschem. -/
def chemblPropertiesCols : List String :=
  ["max_phase_for_ind", "mw_freebase", "alogp", "hba", "hbd", "psa", "rtb", "ro3_pass",
   "num_ro5_violations", "cx_logp", "cx_logd", "full_mwt", "aromatic_rings", "heavy_atoms",
   "qed_weighted", "mw_monoisotopic", "hba_lipinski", "hbd_lipinski",
   "num_lipinski_ro5_violations"]

/-- The constructor of each variant: every subclass __init__ collects its
kwargs into a dict, passes that dict positionally as the name parameter
of GenericCSVDataset.__init__, and then overwrites the configuration
attributes with the hard-coded values of the class body. -/
def variantInit (v : Variant) (kwargs : List (String × Cell)) : Dataset :=
  let s := GenericCSVDataset.init (PyName.dict kwargs) none none none none
  match v with
  | .chembl =>
      { s with name := .str "ChEMBL Approved Drugs (Phase III/IV)"
               table_name := some "chembl"
               properties_cols := some chemblPropertiesCols
               data_path := some "data/benchmark_ChEMBL_approved_drugs_physchem.csv" }
  | .lipophilicity =>
      { s with name := .str "MoleculeNet Lipophilicity"
               table_name := some "lipophilicity"
               properties_cols := some ["logD"]
               data_path := some "data/benchmark_MoleculeNet_Lipophilicity.csv" }
  | .esol =>
      { s with name := .str "MoleculeNet ESOL"
               table_name := some "esol"
               properties_cols := some ["log_solubility_(mol_per_L)"]
               data_path := some "data/benchmark_MoleculeNet_ESOL.csv" }
  | .freesolv =>
      { s with name := .str "MoleculeNet FreeSolv"
               table_name := some "freesolv"
               properties_cols := some ["hydration_free_energy"]
               data_path := some "data/benchmark_MoleculeNet_FreeSolv.csv" }
  | .zinc15 =>
      { s with name := .str "ZINC15 Test Split 20K Samples"
               table_name := some "zinc15_test"
               properties_cols := some ["logp", "mw"]
               index_col := some "index"
               data_path := some "data/benchmark_ZINC15_test_split.csv" }
  | .chembl20k =>
      { s with name := .str "ChEMBL 20K Samples"
               index_col := some "molregno"
               data_path := some "data/benchmark_ChEMBL_random_sampled_drugs.csv" }

/-- load() of each variant, at its default arguments, on given file
contents (the filesystem read of data_path is abstracted as the file
argument).  chembl20k inherits GenericCSVDataset.load. -/
def variantLoad (v : Variant) (file : CSV) (s : Dataset) : Option Dataset :=
  match v with
  | .chembl => ChEMBLApprovedDrugsPhyschem.load file s ["canonical_smiles"]
  | .lipophilicity => MoleculeNetLipophilicityPhyschem.load file s
  | .esol => MoleculeNetESOLPhyschem.load file s
  | .freesolv => MoleculeNetFreeSolvPhyschem.load file s
  | .zinc15 => ZINC15TestSplit.load file s
  | .chembl20k => GenericCSVDataset.load file s

/-- Whether the load body of a variant contains a rename step (the
variants defined through renamingLoad). -/
def performsRename : Variant → Bool
  | .lipophilicity => true
  | .esol => true
  | .freesolv => true
  | _ => false

/-! ## Pipeline record manager

PipelineManager (pipeline_manager.py) is a CRUD facade over an external
DBClient.  The DBClient itself and the sqlalchemy session machinery are
repository code that is not under src/, so they are modelled from the
spec; the manager methods below transliterate pipeline_manager.py.
Each manager method additionally records the trace of session and client
calls it performs, so that claims about which calls happen (open,
delegate, commit, rollback) are stated on the trace. -/

/-- A pipeline record: a unique identifier and an opaque configuration
payload (modelled as a string). -/
structure PipelineRec where
  id : Nat
  config : String
deriving DecidableEq

/-- The database contents: the stored pipeline records in row order. -/
abbrev Db := List PipelineRec

/-- The error kinds the database client surfaces to the manager. -/
inductive DbError where
  | integrityError
deriving DecidableEq

/-- One session or client call performed by a manager method. -/
inductive DbEvent where
  | openSession
  | insertCall
  | updateRecordCall
  | queryByIdCall
  | queryRangeCall
  | deleteCall
  | commit
  | rollback
  | closeSession
deriving DecidableEq

/-- Modelled from the spec: Session() is a scoped transactional context.
A session holds the committed database plus a pending working copy;
commit publishes pending, rollback discards it, and closing a session
yields whatever is committed (an uncommitted pending copy is dropped on
all exit paths). -/
structure DbSession where
  committed : Db
  pending : Db
deriving DecidableEq

/-- Opening a session over the current database. -/
def DbSession.start (db : Db) : DbSession := ⟨db, db⟩

/-- sess.commit(): the pending changes become committed. -/
def DbSession.commitNow (s : DbSession) : DbSession := ⟨s.pending, s.pending⟩

/-- sess.rollback(): the pending changes are discarded. -/
def DbSession.rollbackNow (s : DbSession) : DbSession := ⟨s.committed, s.committed⟩

/-- Closing the session: the database is whatever was committed. -/
def DbSession.close (s : DbSession) : Db := s.committed

/-- Modelled from the spec: DBClient.insert(record, session) adds the
record within the session transaction and returns it. -/
def DBClient.insert (sess : DbSession) (record : PipelineRec) : DbSession × PipelineRec :=
  ({ sess with pending := sess.pending ++ [record] }, record)

/-- Modelled from the spec: DBClient.update_record(table, id, new_config,
session) rewrites the configuration of the record with the given id
within the session transaction, or raises an IntegrityError-kind failure
on a referential/uniqueness-integrity violation.  Which updates violate
integrity is decided by the database schema, modelled as the abstract
predicate violates. -/
def DBClient.update_record (violates : Db → Nat → String → Bool) (sess : DbSession)
    (id : Nat) (new_config : String) : Except DbError (DbSession × PipelineRec) :=
  if violates sess.pending id new_config then
    .error .integrityError
  else
    let pending2 := sess.pending.map
      (fun r => if r.id = id then { r with config := new_config } else r)
    .ok ({ sess with pending := pending2 }, ⟨id, new_config⟩)

/-- Modelled from the spec: DBClient.query_by_id(table, id, session)
returns the record with the given id, if any. -/
def DBClient.query_by_id (sess : DbSession) (id : Nat) : Option PipelineRec :=
  sess.pending.find? (fun r => r.id == id)

/-- Modelled from the spec: DBClient.query_range(table, start_idx,
n_rows, session) returns the records of the half-open row range
[start_idx, start_idx + n_rows), or fewer if the table is shorter. -/
def DBClient.query_range (sess : DbSession) (start_idx n_rows : Nat) : List PipelineRec :=
  (sess.pending.drop start_idx).take n_rows

/-- Modelled from the spec: DBClient.delete(table, id, session) removes
the record with the given id within the session transaction and returns
it. -/
def DBClient.deleteRecord (sess : DbSession) (id : Nat) : DbSession × Option PipelineRec :=
  ({ sess with pending := sess.pending.filter (fun r => !(r.id == id)) },
   sess.pending.find? (fun r => r.id == id))

/-- PipelineManager.create: open a session, delegate to insert, commit. -/
def PipelineManager.create (db : Db) (ppln : PipelineRec) : Db × PipelineRec × List DbEvent :=
  let sess := DbSession.start db
  let (sess1, record) := DBClient.insert sess ppln
  let sess2 := sess1.commitNow
  (sess2.close, record,
   [.openSession, .insertCall, .commit, .closeSession])

/-- PipelineManager.update: open a session, delegate to update_record and
commit; on an IntegrityError, roll the session back and re-raise. -/
def PipelineManager.update (violates : Db → Nat → String → Bool) (db : Db)
    (previous_id : Nat) (new_conf : String) :
    Db × Except DbError PipelineRec × List DbEvent :=
  let sess := DbSession.start db
  match DBClient.update_record violates sess previous_id new_conf with
  | .ok (sess1, pipeline) =>
      let sess2 := sess1.commitNow
      (sess2.close, .ok pipeline,
       [.openSession, .updateRecordCall, .commit, .closeSession])
  | .error e =>
      let sess1 := sess.rollbackNow
      (sess1.close, .error e,
       [.openSession, .updateRecordCall, .rollback, .closeSession])

/-- PipelineManager.fetch_by_id: open a session and delegate to
query_by_id; the body performs no commit. -/
def PipelineManager.fetch_by_id (db : Db) (pipeline_id : Nat) :
    Db × Option PipelineRec × List DbEvent :=
  let sess := DbSession.start db
  let pipeline := DBClient.query_by_id sess pipeline_id
  (sess.close, pipeline,
   [.openSession, .queryByIdCall, .closeSession])

/-- PipelineManager.fetch_all: open a session and delegate to
query_range; the body performs no commit. -/
def PipelineManager.fetch_all (db : Db) (start_index num_rows : Nat) :
    Db × List PipelineRec × List DbEvent :=
  let sess := DbSession.start db
  let pipelines := DBClient.query_range sess start_index num_rows
  (sess.close, pipelines,
   [.openSession, .queryRangeCall, .closeSession])

/-- PipelineManager.delete: open a session, delegate to delete, commit. -/
def PipelineManager.delete (db : Db) (pipeline_id : Nat) :
    Db × Option PipelineRec × List DbEvent :=
  let sess := DbSession.start db
  let (sess1, deleted) := DBClient.deleteRecord sess pipeline_id
  let sess2 := sess1.commitNow
  (sess2.close, deleted,
   [.openSession, .deleteCall, .commit, .closeSession])

/-- The values of the raw file column named c (used to state what
"indexed by that column" means for set_index). -/
def fileColumn (file : CSV) (c : String) : Option (List Cell) := do
  let i ← file.header.findIdx? (· == c)
  mapOrFail (fun r => r[i]?) file.rows

/-! ## General lemmas about the embedding -/

theorem cellLe_refl (a : Cell) : cellLe a a = true := by
  cases a <;> simp [cellLe]

theorem cellLe_total (a b : Cell) : cellLe a b = true ∨ cellLe b a = true := by
  cases a <;> cases b <;> simp [cellLe] <;> exact le_total ..

theorem cellLe_trans {a b c : Cell} (h1 : cellLe a b = true) (h2 : cellLe b c = true) :
    cellLe a c = true := by
  cases a <;> cases b <;> cases c <;> simp_all [cellLe] <;> exact le_trans h1 h2

instance : IsTotal (Cell × List Cell) keyLe := ⟨fun a b => cellLe_total a.1 b.1⟩

instance : IsTrans (Cell × List Cell) keyLe := ⟨fun _ _ _ => cellLe_trans⟩

theorem mapOrFail_eq_some {f : α → Option β} :
    ∀ {l : List α} {l2 : List β},
      mapOrFail f l = some l2 ↔ List.Forall₂ (fun a b => f a = some b) l l2 := by
  intro l
  induction l with
  | nil =>
    intro l2
    constructor
    · intro h
      cases h
      exact List.Forall₂.nil
    · intro h
      cases h
      rfl
  | cons a t ih =>
    intro l2
    simp only [mapOrFail, Option.bind_eq_some, Option.map_eq_some']
    constructor
    · rintro ⟨b, hb, bs, hbs, rfl⟩
      exact List.Forall₂.cons hb (ih.mp hbs)
    · intro h
      cases h with
      | cons hb hbs => exact ⟨_, hb, _, ih.mpr hbs, rfl⟩

theorem forall2_mem_right {R : α → β → Prop} :
    ∀ {l : List α} {l2 : List β}, List.Forall₂ R l l2 → ∀ b ∈ l2, ∃ a ∈ l, R a b := by
  intro l l2 h
  induction h with
  | nil => intro b hb; cases hb
  | cons hr _ ih =>
    intro b hb
    rcases List.mem_cons.mp hb with rfl | hb
    · exact ⟨_, List.mem_cons_self .., hr⟩
    · rcases ih b hb with ⟨a, ha, hra⟩
      exact ⟨a, List.mem_cons_of_mem _ ha, hra⟩

theorem forall2_mem_left {R : α → β → Prop} :
    ∀ {l : List α} {l2 : List β}, List.Forall₂ R l l2 → ∀ a ∈ l, ∃ b ∈ l2, R a b := by
  intro l l2 h
  induction h with
  | nil => intro a ha; cases ha
  | cons hr _ ih =>
    intro a ha
    rcases List.mem_cons.mp ha with rfl | ha
    · exact ⟨_, List.mem_cons_self .., hr⟩
    · rcases ih a ha with ⟨b, hb, hrb⟩
      exact ⟨b, List.mem_cons_of_mem _ hb, hrb⟩

theorem forall2_map_right {R : α → β → Prop} {S : α → γ → Prop} {k : β → γ}
    {l : List α} {l2 : List β} (h : List.Forall₂ R l l2)
    (hk : ∀ a b, R a b → S a (k b)) : List.Forall₂ S l (l2.map k) := by
  induction h with
  | nil => exact .nil
  | cons hr _ ih => exact .cons (hk _ _ hr) ih

theorem forall2_map_eq {R : α → β → Prop} {ka : α → γ} {kb : β → γ}
    {l : List α} {l2 : List β} (h : List.Forall₂ R l l2)
    (hk : ∀ a b, R a b → kb b = ka a) : l2.map kb = l.map ka := by
  induction h with
  | nil => rfl
  | cons hr _ ih => simp [ih, hk _ _ hr]

theorem selectColumns_spec {df : DataFrame} {cs : List String} {e : DataFrame}
    (h : selectColumns df cs = some e) :
    e.colNames = cs ∧ e.indexName = df.indexName ∧ rowIndex e = rowIndex df := by
  simp only [selectColumns, Option.bind_eq_bind, Option.pure_def, Option.bind_eq_some] at h
  rcases h with ⟨idxs, _, rows, hrows, he⟩
  cases he
  refine ⟨rfl, rfl, ?_⟩
  have h2 := mapOrFail_eq_some.mp hrows
  exact forall2_map_eq h2 (by
    intro r p hp
    rcases Option.map_eq_some'.mp hp with ⟨vals, _, hv⟩
    simp [← hv])

theorem locSelect_spec {df : DataFrame} {sel : List Cell} {e : DataFrame}
    (h : locSelect df sel = some e) :
    e.colNames = df.colNames ∧ e.indexName = df.indexName ∧
      ∀ r, r ∈ e.rows ↔ r ∈ df.rows ∧ r.1 ∈ sel := by
  simp only [locSelect, Option.bind_eq_bind, Option.pure_def, Option.bind_eq_some] at h
  rcases h with ⟨groups, hg, he⟩
  cases he
  have hf := mapOrFail_eq_some.mp hg
  have hgrp : ∀ s gp, (if (df.rows.filter (fun r => r.1 == s)).isEmpty then none
      else some (df.rows.filter (fun r => r.1 == s))) = some gp →
      gp = df.rows.filter (fun r => r.1 == s) ∧ gp ≠ [] := by
    intro s gp hsg
    by_cases hemp : (df.rows.filter (fun r => r.1 == s)).isEmpty = true
    · simp [hemp] at hsg
    · rw [if_neg hemp] at hsg
      cases hsg
      exact ⟨rfl, by simpa [List.isEmpty_iff] using hemp⟩
  refine ⟨rfl, rfl, ?_⟩
  intro r
  simp only [List.mem_flatten]
  constructor
  · rintro ⟨gp, hgp, hr⟩
    rcases forall2_mem_right hf gp hgp with ⟨s, hs, hsg⟩
    rcases hgrp s gp hsg with ⟨rfl, -⟩
    rcases List.mem_filter.mp hr with ⟨hrdf, hrs⟩
    exact ⟨hrdf, by simpa using (beq_iff_eq.mp hrs) ▸ hs⟩
  · rintro ⟨hrdf, hrs⟩
    rcases forall2_mem_left hf r.1 hrs with ⟨gp, hgp, hsg⟩
    rcases hgrp r.1 gp hsg with ⟨rfl, -⟩
    exact ⟨_, hgp, List.mem_filter.mpr ⟨hrdf, by simp⟩⟩

theorem setIndex_spec {file : CSV} {c : String} {df : DataFrame}
    (h : setIndex file c = some df) :
    ∃ i vals, file.header.findIdx? (· == c) = some i ∧
      df.indexName = some c ∧ df.colNames = file.header.eraseIdx i ∧
      fileColumn file c = some vals ∧ rowIndex df = vals := by
  simp only [setIndex, Option.bind_eq_bind, Option.pure_def, Option.bind_eq_some] at h
  rcases h with ⟨i, hi, rows, hrows, he⟩
  cases he
  have hf := mapOrFail_eq_some.mp hrows
  refine ⟨i, rowIndex ⟨some c, file.header.eraseIdx i, rows⟩, hi, rfl, rfl, ?_, rfl⟩
  simp only [fileColumn, Option.bind_eq_bind, hi, Option.some_bind]
  rw [mapOrFail_eq_some]
  unfold rowIndex
  exact forall2_map_right hf (by
    intro a b hab
    rcases Option.map_eq_some'.mp hab with ⟨v, hv, hb⟩
    simp [← hb, hv])

theorem sortRows_colNames (df : DataFrame) : (sortRows df).colNames = df.colNames := rfl

theorem sortRows_indexName (df : DataFrame) : (sortRows df).indexName = df.indexName := rfl

theorem sortRows_perm (df : DataFrame) : (sortRows df).rows.Perm df.rows :=
  List.perm_insertionSort keyLe df.rows

theorem sortRows_sorted (df : DataFrame) : List.Sorted keyLe (sortRows df).rows :=
  List.sorted_insertionSort keyLe df.rows

theorem sortRows_rowIndex_sorted (df : DataFrame) :
    List.Sorted cellLeR (rowIndex (sortRows df)) := by
  have h := sortRows_sorted df
  unfold rowIndex
  exact List.pairwise_map.mpr h

theorem sortRows_rowIndex_perm (df : DataFrame) :
    (rowIndex (sortRows df)).Perm (rowIndex df) :=
  (sortRows_perm df).map _

theorem indexedBase_not_truthy {file : CSV} {idxCol : Option String}
    (h : truthyS idxCol = false) : indexedBase file idxCol = some (defaultIndex file) := by
  match idxCol with
  | none => rfl
  | some c =>
    simp only [truthyS, Bool.not_eq_false', beq_iff_eq] at h
    simp [indexedBase, h]

theorem indexedBase_truthy {file : CSV} {c : String} {dfB : DataFrame} (hc : c ≠ "")
    (h : indexedBase file (some c) = some dfB) :
    ∃ df0, setIndex file c = some df0 ∧ dfB = sortRows df0 := by
  simp only [indexedBase, if_neg hc, Option.map_eq_some'] at h
  rcases h with ⟨df0, h0, hsort⟩
  exact ⟨df0, h0, hsort.symm⟩

theorem indexedData_eq {file : CSV} {idxCol : Option String} {idxSel : Option (List Cell)}
    {df : DataFrame} (h : indexedData file idxCol idxSel = some df) :
    ∃ dfB, indexedBase file idxCol = some dfB ∧
      ((truthyL idxSel = false ∧ df = dfB) ∨
       (∃ sel, idxSel = some sel ∧ sel ≠ [] ∧ locSelect dfB sel = some df)) := by
  rcases idxSel with _ | sel
  · simp only [indexedData, Option.bind_eq_bind, Option.pure_def, Option.bind_eq_some] at h
    rcases h with ⟨dfB, hB, hrest⟩
    obtain rfl : dfB = df := by simpa using hrest
    exact ⟨dfB, hB, Or.inl ⟨rfl, rfl⟩⟩
  · by_cases hemp : sel.isEmpty = true
    · simp only [indexedData, Option.bind_eq_bind, Option.pure_def, Option.bind_eq_some,
        if_pos hemp] at h
      rcases h with ⟨dfB, hB, hrest⟩
      obtain rfl : dfB = df := by simpa using hrest
      exact ⟨dfB, hB, Or.inl ⟨by simp [truthyL, hemp], rfl⟩⟩
    · simp only [indexedData, Option.bind_eq_bind, Option.pure_def, Option.bind_eq_some,
        if_neg hemp] at h
      rcases h with ⟨dfB, hB, hrest⟩
      exact ⟨dfB, hB, Or.inr ⟨sel, rfl, by simpa [List.isEmpty_iff] using hemp, hrest⟩⟩

theorem optBind_eq_some {x : Option α} {f : α → Option β} {b : β}
    (h : x.bind f = some b) : ∃ a, x = some a ∧ f a = some b :=
  Option.bind_eq_some.mp h

theorem load_csv_eq {file : CSV} {idxCol : Option String} {idxSel : Option (List Cell)}
    {cols : List String} {lc : Option String} {rr : Bool}
    {cd : DataFrame} {od : Option DataFrame} {mu : MaxUpdate}
    (h : load_csv file idxCol idxSel cols lc rr = some (cd, od, mu)) :
    ∃ df, indexedData file idxCol idxSel = some df ∧
      computeMaxLen df cols lc = some mu ∧
      selectColumns df cols = some cd ∧
      ((rr = true ∧ ∃ o, od = some o ∧
          selectColumns df (remainColumns df.colNames cols lc) = some o) ∨
       (rr = false ∧ od = none)) := by
  unfold load_csv at h
  obtain ⟨df, hdf, h⟩ := optBind_eq_some h
  obtain ⟨mu2, hmu, h⟩ := optBind_eq_some h
  obtain ⟨cd2, hcd, h⟩ := optBind_eq_some h
  obtain ⟨od2, hod, h⟩ := optBind_eq_some h
  obtain ⟨rfl, rfl, rfl⟩ : cd2 = cd ∧ od2 = od ∧ mu2 = mu := by
    simpa [Prod.ext_iff] using h
  refine ⟨df, hdf, hmu, hcd, ?_⟩
  match rr with
  | true =>
    rw [if_pos rfl] at hod
    rcases Option.map_eq_some'.mp hod with ⟨o, ho, hor⟩
    exact Or.inl ⟨rfl, o, hor.symm, ho⟩
  | false =>
    rw [if_neg Bool.false_ne_true] at hod
    have hnone : od2 = none := by simpa using hod.symm
    exact Or.inr ⟨rfl, hnone⟩

theorem loadCsv_eq {file : CSV} {s : Dataset} {columns : List String}
    {lengthCol : Option String} {rr : Bool} {s1 : Dataset} {cd : DataFrame}
    {od : Option DataFrame}
    (h : GenericCSVDataset.loadCsv file s columns lengthCol rr = some (s1, cd, od)) :
    ∃ mu, load_csv file s.index_col s.index_selection columns lengthCol rr =
        some (cd, od, mu) ∧ s1 = applyMaxUpdate s mu := by
  unfold GenericCSVDataset.loadCsv at h
  obtain ⟨⟨cd2, od2, mu⟩, hload, hfin⟩ := optBind_eq_some h
  obtain ⟨h1, rfl, rfl⟩ : applyMaxUpdate s mu = s1 ∧ cd2 = cd ∧ od2 = od := by
    simpa [Prod.ext_iff] using hfin
  exact ⟨mu, hload, h1.symm⟩

theorem cellListMax_go : ∀ (l : List Cell) (a : Cell),
    ∃ v, (l.foldl (fun acc x =>
        match acc with
        | none => some x
        | some b => some (if cellLe b x then x else b)) (some a)) = some v ∧
      (v = a ∨ v ∈ l) ∧ cellLe a v = true ∧ ∀ w ∈ l, cellLe w v = true := by
  intro l
  induction l with
  | nil => exact fun a => ⟨a, rfl, Or.inl rfl, cellLe_refl a, by simp⟩
  | cons x t ih =>
    intro a
    by_cases hax : cellLe a x = true
    · rcases ih x with ⟨v, hfold, hmem, hxv, hall⟩
      refine ⟨v, ?_, ?_, cellLe_trans hax hxv, ?_⟩
      · rw [List.foldl_cons]
        simpa [hax] using hfold
      · rcases hmem with rfl | hv
        · exact Or.inr (List.mem_cons_self ..)
        · exact Or.inr (List.mem_cons_of_mem _ hv)
      · intro w hw
        rcases List.mem_cons.mp hw with rfl | hw
        · exact hxv
        · exact hall w hw
    · have hxa : cellLe x a = true := (cellLe_total a x).resolve_left hax
      rcases ih a with ⟨v, hfold, hmem, hav, hall⟩
      refine ⟨v, ?_, ?_, hav, ?_⟩
      · rw [List.foldl_cons]
        simpa [hax] using hfold
      · rcases hmem with rfl | hv
        · exact Or.inl rfl
        · exact Or.inr (List.mem_cons_of_mem _ hv)
      · intro w hw
        rcases List.mem_cons.mp hw with rfl | hw
        · exact cellLe_trans hxa hav
        · exact hall w hw

theorem cellListMax_spec {l : List Cell} (h : l ≠ []) :
    ∃ v, cellListMax l = some v ∧ v ∈ l ∧ ∀ w ∈ l, cellLe w v = true := by
  match l, h with
  | x :: t, _ =>
    rcases cellListMax_go t x with ⟨v, hfold, hmem, hxv, hall⟩
    refine ⟨v, ?_, ?_, ?_⟩
    · rw [cellListMax, List.foldl_cons]
      exact hfold
    · rcases hmem with rfl | hv
      · exact List.mem_cons_self ..
      · exact List.mem_cons_of_mem _ hv
    · intro w hw
      rcases List.mem_cons.mp hw with rfl | hw
      · exact hxv
      · exact hall w hw

theorem natListMax_go : ∀ (l : List Nat) (a : Nat),
    ∃ v, (l.foldl (fun acc x =>
        match acc with
        | none => some x
        | some b => some (max b x)) (some a)) = some v ∧
      (v = a ∨ v ∈ l) ∧ a ≤ v ∧ ∀ w ∈ l, w ≤ v := by
  intro l
  induction l with
  | nil => exact fun a => ⟨a, rfl, Or.inl rfl, le_refl a, by simp⟩
  | cons x t ih =>
    intro a
    rcases ih (max a x) with ⟨v, hfold, hmem, hmv, hall⟩
    refine ⟨v, ?_, ?_, le_trans (le_max_left a x) hmv, ?_⟩
    · rw [List.foldl_cons]
      exact hfold
    · rcases hmem with rfl | hv
      · rcases max_choice a x with hc | hc
        · exact Or.inl hc
        · refine Or.inr ?_
          rw [hc]
          exact List.mem_cons_self ..
      · exact Or.inr (List.mem_cons_of_mem _ hv)
    · intro w hw
      rcases List.mem_cons.mp hw with rfl | hw
      · exact le_trans (le_max_right a w) hmv
      · exact hall w hw

theorem natListMax_spec {l : List Nat} (h : l ≠ []) :
    ∃ v, natListMax l = some v ∧ v ∈ l ∧ ∀ w ∈ l, w ≤ v := by
  match l, h with
  | x :: t, _ =>
    rcases natListMax_go t x with ⟨v, hfold, hmem, hxv, hall⟩
    refine ⟨v, ?_, ?_, ?_⟩
    · rw [natListMax, List.foldl_cons]
      exact hfold
    · rcases hmem with rfl | hv
      · exact List.mem_cons_self ..
      · exact List.mem_cons_of_mem _ hv
    · intro w hw
      rcases List.mem_cons.mp hw with rfl | hw
      · exact hxv
      · exact hall w hw

theorem computeMaxLen_truthy {df : DataFrame} {cols : List String} {c : String}
    (hc : c ≠ "") {mu : MaxUpdate} (h : computeMaxLen df cols (some c) = some mu) :
    ∃ vals, getColumn df c = some vals ∧ mu = .setTo (cellListMax vals) := by
  have ht : truthyS (some c) = true := by simp [truthyS, hc]
  unfold computeMaxLen at h
  rw [if_pos ht] at h
  obtain ⟨vals, hv, hm⟩ := optBind_eq_some h
  exact ⟨vals, hv, by simpa using hm.symm⟩

theorem computeMaxLen_single {df : DataFrame} {c0 : String} {lc : Option String}
    (hlc : truthyS lc = false) {mu : MaxUpdate}
    (h : computeMaxLen df [c0] lc = some mu) :
    ∃ vals lens, getColumn df c0 = some vals ∧ mapOrFail strLen vals = some lens ∧
      mu = .setTo ((natListMax lens).map (fun n => Cell.num (Int.ofNat n))) := by
  unfold computeMaxLen at h
  rw [if_neg (by simp [hlc]),
    if_pos (show ([c0] : List String).length = 1 from rfl)] at h
  obtain ⟨c0x, hc0, h⟩ := optBind_eq_some h
  have hcx : c0x = c0 := by simpa using hc0.symm
  rw [hcx] at h
  obtain ⟨vs, hv, h2⟩ := optBind_eq_some h
  obtain ⟨ls, hl, h3⟩ := optBind_eq_some h2
  exact ⟨vs, ls, hv, hl, by simpa using h3.symm⟩

theorem computeMaxLen_multi {df : DataFrame} {cols : List String} {lc : Option String}
    (hlc : truthyS lc = false) (hn : cols.length ≠ 1) :
    computeMaxLen df cols lc = some .keep := by
  unfold computeMaxLen
  rw [if_neg (by simp [hlc]), if_neg hn]

theorem eraseIdx_findIdx_filter {c : String} :
    ∀ {l : List String} {i : Nat}, l.Nodup → l.findIdx? (· == c) = some i →
      l.eraseIdx i = l.filter (fun x => !(x == c)) := by
  intro l
  induction l with
  | nil => intro i _ h; simp [List.findIdx?] at h
  | cons a t ih =>
    intro i hn h
    rw [List.findIdx?_cons] at h
    by_cases hac : (a == c) = true
    · rw [if_pos hac] at h
      cases h
      rw [List.eraseIdx_cons_zero, List.filter_cons]
      have hca : a = c := beq_iff_eq.mp hac
      subst hca
      simp only [BEq.refl, Bool.not_true, Bool.false_eq_true, if_false]
      refine (List.filter_eq_self.mpr ?_).symm
      intro x hx
      have hxa : x ≠ a := by
        intro hh
        subst hh
        exact (List.nodup_cons.mp hn).1 hx
      simp [hxa]
    · rw [if_neg hac, List.findIdx?_start_succ, Option.map_eq_some'] at h
      rcases h with ⟨j, hj, rfl⟩
      rw [List.eraseIdx_cons_succ, List.filter_cons]
      have : (!(a == c)) = true := by simp_all
      rw [if_pos this, ih (List.nodup_cons.mp hn).2 hj]

theorem indexedBase_colNames_filter {file : CSV} {c : String} {dfB : DataFrame}
    (hn : file.header.Nodup) (hc : c ≠ "")
    (h : indexedBase file (some c) = some dfB) :
    dfB.colNames = file.header.filter (fun x => !(x == c)) := by
  rcases indexedBase_truthy hc h with ⟨df0, h0, rfl⟩
  rcases setIndex_spec h0 with ⟨i, vals, hi, _, hcols, _, _⟩
  rw [sortRows_colNames, hcols, eraseIdx_findIdx_filter hn hi]

theorem renameColumns_rows (df : DataFrame) (m : List (String × String)) :
    (renameColumns df m).rows = df.rows := rfl

theorem renameColumns_indexName (df : DataFrame) (m : List (String × String)) :
    (renameColumns df m).indexName = df.indexName := rfl

theorem renameColumns_rowIndex (df : DataFrame) (m : List (String × String)) :
    rowIndex (renameColumns df m) = rowIndex df := rfl

theorem applyMaxUpdate_config (s : Dataset) (mu : MaxUpdate) :
    (applyMaxUpdate s mu).index_col = s.index_col ∧
    (applyMaxUpdate s mu).index_selection = s.index_selection ∧
    (applyMaxUpdate s mu).properties_cols = s.properties_cols ∧
    (applyMaxUpdate s mu).name = s.name ∧
    (applyMaxUpdate s mu).table_name = s.table_name ∧
    (applyMaxUpdate s mu).data_path = s.data_path ∧
    (applyMaxUpdate s mu).data = s.data ∧
    (applyMaxUpdate s mu).properties = s.properties := by
  cases mu <;> simp [applyMaxUpdate]

theorem simpleCsvLoad_eq {file : CSV} {s : Dataset} {cols : List String}
    {lc : Option String} {rr : Bool} {s1 : Dataset}
    (h : simpleCsvLoad file s cols lc rr = some s1) :
    ∃ s0 cd od, GenericCSVDataset.loadCsv file s cols lc rr = some (s0, cd, od) ∧
      s1 = { s0 with data := some cd } := by
  obtain ⟨⟨s0, cd, od⟩, hl, hfin⟩ := optBind_eq_some h
  exact ⟨s0, cd, od, hl, by simpa using hfin.symm⟩

theorem chemblLoad_eq {file : CSV} {s : Dataset} {cols : List String} {s1 : Dataset}
    (h : ChEMBLApprovedDrugsPhyschem.load file s cols = some s1) :
    ∃ s0 d p pc p2, GenericCSVDataset.loadCsv file s cols none true = some (s0, d, some p) ∧
      s0.properties_cols = some pc ∧ selectColumns p pc = some p2 ∧
      s1 = { s0 with data := some d, properties := some p2 } := by
  obtain ⟨⟨s0, d, props⟩, hl, hfin⟩ := optBind_eq_some h
  rcases props with _ | p
  · simp at hfin
  · rcases hpc : s0.properties_cols with _ | pc
    · simp [hpc] at hfin
    · simp only [hpc] at hfin
      obtain ⟨p2, hp2, hfin2⟩ := optBind_eq_some hfin
      exact ⟨s0, d, p, pc, p2, hl, hpc, hp2, by simpa [hpc] using hfin2.symm⟩

theorem renamingLoad_eq {orig : List String} {file : CSV} {s : Dataset}
    {cols : List String} {s1 : Dataset}
    (h : renamingLoad orig file s cols = some s1) :
    ∃ s0 d c0 p pc p3,
      GenericCSVDataset.loadCsv file s cols none true = some (s0, d, some p) ∧
      cols[0]? = some c0 ∧ s0.properties_cols = some pc ∧
      selectColumns (renameColumns p (orig.zip pc)) pc = some p3 ∧
      s1 = { s0 with
             data := some (renameColumns d [(c0, "canonical_smiles")])
             properties := some p3 } := by
  obtain ⟨⟨s0, d, props⟩, hl, hfin⟩ := optBind_eq_some h
  obtain ⟨c0, hc0, hfin⟩ := optBind_eq_some hfin
  rcases props with _ | p
  · simp at hfin
  · rcases hpc : s0.properties_cols with _ | pc
    · simp [hpc] at hfin
    · simp only [hpc] at hfin
      obtain ⟨p3, hp3, hfin2⟩ := optBind_eq_some hfin
      exact ⟨s0, d, c0, p, pc, p3, hl, hc0, hpc, hp3, by simpa [hpc] using hfin2.symm⟩

theorem simpleCsvLoad_result {file : CSV} {s : Dataset} {cols : List String}
    {lc : Option String} {rr : Bool} {s1 : Dataset}
    (h : simpleCsvLoad file s cols lc rr = some s1) :
    ∃ d, s1.data = some d ∧ d.colNames = cols ∧ s1.properties = s.properties := by
  obtain ⟨s0, cd, od, hl, rfl⟩ := simpleCsvLoad_eq h
  obtain ⟨mu, hload, rfl⟩ := loadCsv_eq hl
  obtain ⟨df, hdf, hmu, hcd, hrest⟩ := load_csv_eq hload
  obtain ⟨hcols, _, _⟩ := selectColumns_spec hcd
  exact ⟨cd, rfl, hcols, (applyMaxUpdate_config s mu).2.2.2.2.2.2.2⟩

theorem chemblLoad_result {file : CSV} {s : Dataset} {cols : List String} {s1 : Dataset}
    (h : ChEMBLApprovedDrugsPhyschem.load file s cols = some s1) :
    ∃ d p2 pc, s1.data = some d ∧ d.colNames = cols ∧ s1.properties = some p2 ∧
      s.properties_cols = some pc ∧ p2.colNames = pc ∧ rowIndex p2 = rowIndex d := by
  obtain ⟨s0, d, p, pc, p2, hl, hpc, hp2, rfl⟩ := chemblLoad_eq h
  obtain ⟨mu, hload, rfl⟩ := loadCsv_eq hl
  obtain ⟨df, hdf, hmu, hcd, hrest⟩ := load_csv_eq hload
  obtain ⟨hdcols, _, hdri⟩ := selectColumns_spec hcd
  rcases hrest with ⟨_, o, hoeq, hosel⟩ | ⟨hff, _⟩
  · obtain rfl : p = o := by simpa using hoeq
    obtain ⟨hp2cols, _, hp2ri⟩ := selectColumns_spec hp2
    obtain ⟨_, _, hori⟩ := selectColumns_spec hosel
    refine ⟨d, p2, pc, rfl, hdcols, rfl, ?_, hp2cols, ?_⟩
    · rw [← (applyMaxUpdate_config s mu).2.2.1]
      exact hpc
    · rw [hp2ri, hori, hdri]
  · exact absurd hff (by simp)

theorem renamingLoad_result {orig : List String} {file : CSV} {s : Dataset}
    {c0 : String} {s1 : Dataset}
    (h : renamingLoad orig file s [c0] = some s1) :
    ∃ d2 p3 pc, s1.data = some d2 ∧ d2.colNames = ["canonical_smiles"] ∧
      s1.properties = some p3 ∧ s.properties_cols = some pc ∧ p3.colNames = pc ∧
      rowIndex p3 = rowIndex d2 := by
  obtain ⟨s0, d, c0x, p, pc, p3, hl, hc0, hpc, hp3, rfl⟩ := renamingLoad_eq h
  have heq : c0 = c0x := by simpa using hc0
  subst heq
  obtain ⟨mu, hload, rfl⟩ := loadCsv_eq hl
  obtain ⟨df, hdf, hmu, hcd, hrest⟩ := load_csv_eq hload
  obtain ⟨hdcols, _, hdri⟩ := selectColumns_spec hcd
  rcases hrest with ⟨_, o, hoeq, hosel⟩ | ⟨hff, _⟩
  · obtain rfl : p = o := by simpa using hoeq
    obtain ⟨_, _, hori⟩ := selectColumns_spec hosel
    obtain ⟨hp3cols, _, hp3ri⟩ := selectColumns_spec hp3
    refine ⟨_, p3, pc, rfl, ?_, rfl, ?_, hp3cols, ?_⟩
    · show (d.colNames.map fun c => (((([(c0, "canonical_smiles")]).lookup c).getD c))) = _
      rw [hdcols]
      simp [List.lookup]
    · rw [← (applyMaxUpdate_config s mu).2.2.1]
      exact hpc
    · rw [renameColumns_rowIndex, hp3ri, renameColumns_rowIndex, hori, hdri]
  · exact absurd hff (by simp)

/-- C1: for every dataset descriptor variant, after a successful load() with
its default arguments, the data table has exactly the single requested
primary column, exposed as canonical_smiles (renamed from the source name
where the variant sources a differently-named column), and the properties
table, when present, has exactly the properties_cols declared by the
constructor, in order, with the same row index as the data table. -/
theorem load_columns_exact (v : Variant) (kwargs : List (String × Cell)) (file : CSV)
    (s1 : Dataset) (h : variantLoad v file (variantInit v kwargs) = some s1) :
    ∃ d, s1.data = some d ∧ d.colNames = ["canonical_smiles"] ∧
      ∀ p, s1.properties = some p →
        ∃ pc, (variantInit v kwargs).properties_cols = some pc ∧
          p.colNames = pc ∧ rowIndex p = rowIndex d := by
  cases v with
  | chembl =>
    obtain ⟨d, p2, pc, hd, hdc, hp, hpc, hpcols, hri⟩ := chemblLoad_result h
    refine ⟨d, hd, hdc, ?_⟩
    intro p hp2
    rw [hp] at hp2
    obtain rfl : p2 = p := by simpa using hp2
    exact ⟨pc, hpc, hpcols, hri⟩
  | lipophilicity =>
    obtain ⟨d, p3, pc, hd, hdc, hp, hpc, hpcols, hri⟩ := renamingLoad_result h
    refine ⟨d, hd, hdc, ?_⟩
    intro p hp2
    rw [hp] at hp2
    obtain rfl : p3 = p := by simpa using hp2
    exact ⟨pc, hpc, hpcols, hri⟩
  | esol =>
    obtain ⟨d, p3, pc, hd, hdc, hp, hpc, hpcols, hri⟩ := renamingLoad_result h
    refine ⟨d, hd, hdc, ?_⟩
    intro p hp2
    rw [hp] at hp2
    obtain rfl : p3 = p := by simpa using hp2
    exact ⟨pc, hpc, hpcols, hri⟩
  | freesolv =>
    obtain ⟨d, p3, pc, hd, hdc, hp, hpc, hpcols, hri⟩ := renamingLoad_result h
    refine ⟨d, hd, hdc, ?_⟩
    intro p hp2
    rw [hp] at hp2
    obtain rfl : p3 = p := by simpa using hp2
    exact ⟨pc, hpc, hpcols, hri⟩
  | zinc15 =>
    obtain ⟨d, hd, hdc, hprops⟩ := simpleCsvLoad_result h
    refine ⟨d, hd, hdc, ?_⟩
    intro p hp
    rw [hprops] at hp
    exact absurd hp (by simp [variantInit, GenericCSVDataset.init])
  | chembl20k =>
    obtain ⟨d, hd, hdc, hprops⟩ := simpleCsvLoad_result h
    refine ⟨d, hd, hdc, ?_⟩
    intro p hp
    rw [hprops] at hp
    exact absurd hp (by simp [variantInit, GenericCSVDataset.init])

/-! ## Concrete fixtures used by witnesses and counterexamples -/

/-- An empty dataframe, used as a getD fallback in fixtures. -/
def emptyDF : DataFrame := ⟨none, [], []⟩

/-- A freshly constructed generic dataset with no configuration. -/
def dsPlain : Dataset := GenericCSVDataset.init PyName.pyNone none none none none

/-- A small Lipophilicity-shaped file: source column smiles plus the
source property column exp. -/
def fileA : CSV := ⟨["smiles", "exp"], [[.str "CCO", .num 1], [.str "CC", .num 2]]⟩

/-- The Lipophilicity descriptor loaded from fileA. -/
def outA : Dataset :=
  (variantLoad .lipophilicity fileA (variantInit .lipophilicity [])).getD dsPlain

/-- A file with a string column and an explicit numeric length column. -/
def fileB : CSV := ⟨["s", "length"], [[.str "ab", .num 2], [.str "abc", .num 3]]⟩

/-- The loader output on fileB with length column "length". -/
def outB : DataFrame × Option DataFrame × MaxUpdate :=
  (load_csv fileB none none ["s"] (some "length") true).getD (emptyDF, none, .keep)

/-- A two-column file used to exercise the multi-primary-column call. -/
def fileC : CSV := ⟨["a", "b"], [[.str "x", .str "y"]]⟩

/-- The method output on fileC when both columns are primary and no
length column is given. -/
def outC : Dataset × DataFrame × Option DataFrame :=
  (GenericCSVDataset.loadCsv fileC dsPlain ["a", "b"] none true).getD
    (dsPlain, emptyDF, none)

/-- A file with a numeric index column i and a value column v. -/
def fileD : CSV := ⟨["i", "v"], [[.num 3, .str "p"], [.num 7, .str "q"]]⟩

/-- The loader output on fileD with index column i and no selection. -/
def outD : DataFrame × Option DataFrame × MaxUpdate :=
  (load_csv fileD (some "i") none ["v"] none true).getD (emptyDF, none, .keep)

/-- A file with an index column i, a primary column a and an extra
column b. -/
def fileE : CSV := ⟨["i", "a", "b"], [[.num 1, .str "x", .num 5]]⟩

/-- A ChEMBL-shaped file whose primary column is named foo rather than
canonical_smiles, plus the nineteen ChEMBL property columns. -/
def fileCh : CSV :=
  ⟨"foo" :: chemblPropertiesCols, [Cell.str "x" :: List.replicate 19 (Cell.num 0)]⟩

/-- The ChEMBL load on fileCh requesting the column foo, starting from a
freshly constructed ChEMBL descriptor. -/
def outCh : Dataset :=
  (ChEMBLApprovedDrugsPhyschem.load fileCh (variantInit .chembl []) ["foo"]).getD dsPlain

/-- A one-record database fixture. -/
def db0 : Db := [⟨1, "a"⟩]

/-- An integrity predicate that rejects every update. -/
def alwaysViolates : Db → Nat → String → Bool := fun _ _ _ => true

/-- An integrity predicate that accepts every update. -/
def neverViolates : Db → Nat → String → Bool := fun _ _ _ => false

/-! ## Claim C4 -/

/-- C4: when the database client raises an integrity violation during
update, the manager rolls the open transaction back (the database is
unchanged, so the record keeps its pre-update value and nothing is
partially written), re-raises the originating failure, and its trace
shows open, delegate, rollback, close. -/
theorem update_integrity_rollback_reraise
    (violates : Db → Nat → String → Bool) (db : Db) (previous_id : Nat)
    (new_conf : String) (h : violates db previous_id new_conf = true) :
    PipelineManager.update violates db previous_id new_conf =
      (db, .error .integrityError,
       [.openSession, .updateRecordCall, .rollback, .closeSession]) ∧
    (PipelineManager.fetch_by_id
        (PipelineManager.update violates db previous_id new_conf).1 previous_id).2.1 =
      (PipelineManager.fetch_by_id db previous_id).2.1 := by
  have hrec : DBClient.update_record violates (DbSession.start db) previous_id new_conf
      = .error .integrityError := by
    unfold DBClient.update_record DbSession.start
    simp [h]
  have hupd : PipelineManager.update violates db previous_id new_conf =
      (db, .error .integrityError,
       [.openSession, .updateRecordCall, .rollback, .closeSession]) := by
    simp only [PipelineManager.update]
    rw [hrec]
    rfl
  exact ⟨hupd, by rw [hupd]⟩

/-- Witness for C4: a concrete violating update on the one-record
database, showing rollback and re-raise. -/
theorem update_integrity_rollback_reraise_witness :
    PipelineManager.update alwaysViolates db0 1 "b" =
      (db0, .error .integrityError,
       [.openSession, .updateRecordCall, .rollback, .closeSession]) ∧
    (PipelineManager.fetch_by_id
        (PipelineManager.update alwaysViolates db0 1 "b").1 1).2.1 =
      (PipelineManager.fetch_by_id db0 1).2.1 :=
  update_integrity_rollback_reraise alwaysViolates db0 1 "b" (by decide)

/-! ## Claim C8 -/

/-- C8 counterexample: fetch_by_id opens a session and delegates, but its
body contains no commit call, so the claim that every one of the five
operations commits on success is false. -/
theorem fetch_by_id_no_commit_counterexample :
    DbEvent.commit ∉ (PipelineManager.fetch_by_id db0 1).2.2 := by decide

/-- C8 amended: every operation opens a scoped session and delegates to
the database client; create, delete, and a successful update commit the
session, while fetch_by_id and fetch_all perform no commit, and a failed
update rolls back instead. -/
theorem session_traces_amended (violates : Db → Nat → String → Bool) (db : Db)
    (p : PipelineRec) (id start_index num_rows : Nat) (conf : String) :
    (PipelineManager.create db p).2.2 =
      [.openSession, .insertCall, .commit, .closeSession] ∧
    (PipelineManager.fetch_by_id db id).2.2 =
      [.openSession, .queryByIdCall, .closeSession] ∧
    (PipelineManager.fetch_all db start_index num_rows).2.2 =
      [.openSession, .queryRangeCall, .closeSession] ∧
    (PipelineManager.delete db id).2.2 =
      [.openSession, .deleteCall, .commit, .closeSession] ∧
    (∀ r, (PipelineManager.update violates db id conf).2.1 = .ok r →
      (PipelineManager.update violates db id conf).2.2 =
        [.openSession, .updateRecordCall, .commit, .closeSession]) ∧
    (∀ e, (PipelineManager.update violates db id conf).2.1 = .error e →
      (PipelineManager.update violates db id conf).2.2 =
        [.openSession, .updateRecordCall, .rollback, .closeSession]) := by
  refine ⟨rfl, rfl, rfl, rfl, ?_, ?_⟩
  · intro r hr
    simp only [PipelineManager.update] at hr ⊢
    cases hrec : DBClient.update_record violates (DbSession.start db) id conf with
    | ok t =>
      obtain ⟨sess1, pipeline⟩ := t
      rfl
    | error e2 =>
      rw [hrec] at hr
      simp at hr
  · intro e he
    simp only [PipelineManager.update] at he ⊢
    cases hrec : DBClient.update_record violates (DbSession.start db) id conf with
    | ok t =>
      obtain ⟨sess1, pipeline⟩ := t
      rw [hrec] at he
      simp at he
    | error e2 =>
      rfl

/-- Witness for C8 amended: a concrete successful update commits. -/
theorem session_traces_amended_witness :
    (PipelineManager.update neverViolates db0 1 "b").2.2 =
      [.openSession, .updateRecordCall, .commit, .closeSession] :=
  (session_traces_amended neverViolates db0 ⟨2, "c"⟩ 1 0 1 "b").2.2.2.2.1
    ⟨1, "b"⟩ (by rfl)

/-! ## Claim C10 -/

/-- The hard-coded configuration of each descriptor class body, as the
tuple (name, table_name, properties_cols, index_col, index_selection,
data_path); fields never assigned by a class body keep the base
constructor defaults. -/
def variantHardConfig (v : Variant) :
    PyName × Option String × Option (List String) × Option String ×
      Option (List Cell) × Option String :=
  match v with
  | .chembl =>
      (.str "ChEMBL Approved Drugs (Phase III/IV)", some "chembl",
       some chemblPropertiesCols, none, none,
       some "data/benchmark_ChEMBL_approved_drugs_physchem.csv")
  | .lipophilicity =>
      (.str "MoleculeNet Lipophilicity", some "lipophilicity", some ["logD"], none, none,
       some "data/benchmark_MoleculeNet_Lipophilicity.csv")
  | .esol =>
      (.str "MoleculeNet ESOL", some "esol", some ["log_solubility_(mol_per_L)"],
       none, none, some "data/benchmark_MoleculeNet_ESOL.csv")
  | .freesolv =>
      (.str "MoleculeNet FreeSolv", some "freesolv", some ["hydration_free_energy"],
       none, none, some "data/benchmark_MoleculeNet_FreeSolv.csv")
  | .zinc15 =>
      (.str "ZINC15 Test Split 20K Samples", some "zinc15_test", some ["logp", "mw"],
       some "index", none, some "data/benchmark_ZINC15_test_split.csv")
  | .chembl20k =>
      (.str "ChEMBL 20K Samples", none, none, some "molregno", none,
       some "data/benchmark_ChEMBL_random_sampled_drugs.csv")

/-- C10: the caller's keyword arguments are collected into a dict that is
passed positionally as the base constructor's name parameter and then
overwritten, so they have no effect: the constructed descriptor is
identical to one built with no kwargs, and its configuration fields are
exactly the hard-coded per-variant values. -/
theorem constructor_kwargs_ignored (v : Variant) (kwargs : List (String × Cell)) :
    variantInit v kwargs = variantInit v [] ∧
    ((variantInit v kwargs).name, (variantInit v kwargs).table_name,
     (variantInit v kwargs).properties_cols, (variantInit v kwargs).index_col,
     (variantInit v kwargs).index_selection, (variantInit v kwargs).data_path) =
      variantHardConfig v := by
  cases v <;> exact ⟨rfl, rfl⟩

/-! ## Claim C3 -/

/-- C3 counterexample: a call with two primary columns and no length
column does not surface any error: the loader succeeds, and max_len is
silently left at its initial None instead of being computed. -/
theorem multi_column_silent_skip_counterexample :
    (GenericCSVDataset.loadCsv fileC dsPlain ["a", "b"] none true).map
        (fun t => t.1.max_len) = some none := by decide

/-- C3 amended: with more than one primary column and no truthy length
column, the loader raises no error for the missing statistic: whenever
the call succeeds, max_len is left at its previous value (the
computation is silently skipped, not guarded by an explicit failure). -/
theorem multi_column_no_length_skips_max_len (file : CSV) (s : Dataset)
    (cols : List String) (lc : Option String) (rr : Bool) (s1 : Dataset)
    (cd : DataFrame) (od : Option DataFrame)
    (hlc : truthyS lc = false) (hn : 1 < cols.length)
    (h : GenericCSVDataset.loadCsv file s cols lc rr = some (s1, cd, od)) :
    s1.max_len = s.max_len := by
  obtain ⟨mu, hl, hs1⟩ := loadCsv_eq h
  obtain ⟨df, _, hmu, _, _⟩ := load_csv_eq hl
  have hkeep : computeMaxLen df cols lc = some .keep :=
    computeMaxLen_multi hlc (by omega)
  rw [hkeep] at hmu
  obtain rfl : MaxUpdate.keep = mu := Option.some.inj hmu
  rw [hs1]
  rfl

/-- Witness for C3 amended: the concrete two-column call succeeds with
max_len untouched. -/
theorem multi_column_no_length_skips_max_len_witness :
    outC.1.max_len = dsPlain.max_len :=
  multi_column_no_length_skips_max_len fileC dsPlain ["a", "b"] none true
    outC.1 outC.2.1 outC.2.2 (by decide) (by decide) (by decide)

/-! ## Claim C2 -/

/-- C2: after a successful loader call, the max_len assignment is: when a
length column is supplied (truthy), the maximum value of that column of
the loaded data (an element of the column that bounds every other
element, when the column is nonempty); otherwise, when exactly one
primary column is requested, the maximum character length of the string
values of that sole column. -/
theorem max_len_statistic_correct (file : CSV) (idxCol : Option String)
    (idxSel : Option (List Cell)) (cols : List String) (lc : Option String)
    (rr : Bool) (cd : DataFrame) (od : Option DataFrame) (mu : MaxUpdate)
    (h : load_csv file idxCol idxSel cols lc rr = some (cd, od, mu)) :
    (∀ c, lc = some c → c ≠ "" →
      ∃ df vals, indexedData file idxCol idxSel = some df ∧
        getColumn df c = some vals ∧ mu = .setTo (cellListMax vals) ∧
        (vals ≠ [] → ∃ v, cellListMax vals = some v ∧ v ∈ vals ∧
          ∀ w ∈ vals, cellLe w v = true)) ∧
    (truthyS lc = false → ∀ c0, cols = [c0] →
      ∃ df vals lens, indexedData file idxCol idxSel = some df ∧
        getColumn df c0 = some vals ∧ mapOrFail strLen vals = some lens ∧
        mu = .setTo ((natListMax lens).map (fun n => Cell.num (Int.ofNat n))) ∧
        (lens ≠ [] → ∃ m, natListMax lens = some m ∧ m ∈ lens ∧
          ∀ x ∈ lens, x ≤ m)) := by
  obtain ⟨df, hdf, hmu, hcd, hrest⟩ := load_csv_eq h
  constructor
  · rintro c rfl hc
    obtain ⟨vals, hv, rfl⟩ := computeMaxLen_truthy hc hmu
    exact ⟨df, vals, hdf, hv, rfl, fun hne => cellListMax_spec hne⟩
  · rintro hlc c0 rfl
    obtain ⟨vals, lens, hv, hl, rfl⟩ := computeMaxLen_single hlc hmu
    exact ⟨df, vals, lens, hdf, hv, hl, rfl, fun hne => natListMax_spec hne⟩

/-- Witness for C2: the length-column branch on a concrete file; the
assigned maximum is characterised over the actual column values. -/
theorem max_len_statistic_correct_witness :
    ∃ df vals, indexedData fileB none none = some df ∧
      getColumn df "length" = some vals ∧ outB.2.2 = .setTo (cellListMax vals) ∧
      (vals ≠ [] → ∃ v, cellListMax vals = some v ∧ v ∈ vals ∧
        ∀ w ∈ vals, cellLe w v = true) :=
  (max_len_statistic_correct fileB none none ["s"] (some "length") true
      outB.1 outB.2.1 outB.2.2 (by decide)).1 "length" rfl (by decide)

/-! ## Claim C6 -/

/-- The columns the remaining table actually holds, stated against the
raw file header: the file columns outside the primary list, minus the
length column (when truthy) and minus the index column (when truthy,
since set_index consumes it). -/
def remainSpec (header cols : List String) (lc idxCol : Option String) : List String :=
  header.filter (fun x =>
    decide (x ∉ cols) && decide (effectiveOpt lc ≠ some x) &&
      decide (effectiveOpt idxCol ≠ some x))

theorem contains_not_eq (cols : List String) (x : String) :
    (!(cols.contains x)) = decide (x ∉ cols) := by
  show (!(List.elem x cols)) = decide (x ∉ cols)
  rw [List.elem_eq_mem]
  by_cases h : x ∈ cols <;> simp [h]

theorem none_ne_some (x : String) : decide ((none : Option String) ≠ some x) = true := by
  simp

theorem beq_ne_eq (x c : String) : (!(x == c)) = decide (some c ≠ some x) := by
  by_cases h : x = c
  · subst h
    simp
  · have h1 : (x == c) = false := by
      simpa using h
    have h2 : decide (some c ≠ some x) = true := by
      simp only [decide_eq_true_eq, ne_eq, Option.some.injEq]
      exact fun hcx => h hcx.symm
    rw [h1, h2]
    rfl

theorem indexedData_colNames {file : CSV} {idxCol : Option String}
    {idxSel : Option (List Cell)} {df : DataFrame} (hn : file.header.Nodup)
    (h : indexedData file idxCol idxSel = some df) :
    df.colNames = file.header.filter (fun x => decide (effectiveOpt idxCol ≠ some x)) := by
  obtain ⟨dfB, hB, hcase⟩ := indexedData_eq h
  have hBcol : dfB.colNames =
      file.header.filter (fun x => decide (effectiveOpt idxCol ≠ some x)) := by
    by_cases ht : truthyS idxCol = true
    · match idxCol, ht with
      | some c, ht =>
        have hc : c ≠ "" := by simpa [truthyS] using ht
        rw [indexedBase_colNames_filter hn hc hB]
        have he : effectiveOpt (some c) = some c := by simp [effectiveOpt, ht]
        rw [he]
        refine List.filter_congr ?_
        intro x _
        exact beq_ne_eq x c
      | none, ht => simp [truthyS] at ht
    · have hfalse : truthyS idxCol = false := by simpa using ht
      have hdef : indexedBase file idxCol = some (defaultIndex file) :=
        indexedBase_not_truthy hfalse
      rw [hdef] at hB
      obtain rfl : defaultIndex file = dfB := by simpa using hB
      have he : effectiveOpt idxCol = none := by simp [effectiveOpt, hfalse]
      rw [he]
      have : file.header.filter (fun x => decide ((none : Option String) ≠ some x)) =
          file.header.filter (fun _ => true) := by
        refine List.filter_congr ?_
        intro x _
        simp
      rw [this, List.filter_true]
      rfl
  rcases hcase with ⟨_, rfl⟩ | ⟨sel, _, _, hloc⟩
  · exact hBcol
  · rw [(locSelect_spec hloc).1, hBcol]

theorem remainColumns_filter_eq (header cols : List String) (lc idxCol : Option String) :
    remainColumns (header.filter (fun x => decide (effectiveOpt idxCol ≠ some x))) cols lc
      = remainSpec header cols lc idxCol := by
  rcases lc with _ | lcn
  · simp only [remainColumns, remainSpec, List.filter_filter]
    refine List.filter_congr ?_
    intro x _
    rw [contains_not_eq,
      show effectiveOpt (none : Option String) = none from rfl, none_ne_some,
      Bool.and_true]
  · by_cases hlcn : lcn = ""
    · subst hlcn
      simp only [remainColumns, remainSpec, reduceIte, List.filter_filter]
      refine List.filter_congr ?_
      intro x _
      rw [contains_not_eq,
        show effectiveOpt (some "") = none from rfl, none_ne_some, Bool.and_true]
    · simp only [remainColumns, remainSpec, if_neg hlcn, List.filter_filter]
      refine List.filter_congr ?_
      intro x _
      have he : effectiveOpt (some lcn) = some lcn := by
        simp [effectiveOpt, truthyS, hlcn]
      rw [he, contains_not_eq, beq_ne_eq]

/-- C6 counterexample: with index_col "i" consumed by set_index, the
remaining table holds only ["b"], while the file columns outside the
primary list (no length column supplied) are ["i", "b"]: the claim that
the second table holds exactly the latter is false. -/
theorem remaining_excludes_index_counterexample :
    (load_csv fileE (some "i") none ["a"] none true).map
        (fun t => t.2.1.map (fun o => o.colNames)) = some (some ["b"]) ∧
    fileE.header.filter (fun x => decide (x ∉ (["a"] : List String)) &&
        decide ((none : Option String) ≠ some x)) = ["i", "b"] ∧
    (["b"] : List String) ≠ ["i", "b"] :=
  ⟨by decide, by decide, by decide⟩

/-- C6 amended: when return_remaining is true the second table holds
exactly the file columns that are not primary, not the (truthy) length
column, and not the (truthy) index column consumed by set_index; when
return_remaining is false the second table is the distinct absent value
None, not an empty table. -/
theorem remaining_columns_amended (file : CSV) (idxCol : Option String)
    (idxSel : Option (List Cell)) (cols : List String) (lc : Option String)
    (rr : Bool) (cd : DataFrame) (od : Option DataFrame) (mu : MaxUpdate)
    (hn : file.header.Nodup)
    (h : load_csv file idxCol idxSel cols lc rr = some (cd, od, mu)) :
    (rr = true → ∃ o, od = some o ∧
      o.colNames = remainSpec file.header cols lc idxCol) ∧
    (rr = false → od = none) := by
  obtain ⟨df, hdf, hmu, hcd, hrest⟩ := load_csv_eq h
  have hdfc := indexedData_colNames hn hdf
  constructor
  · intro hrr
    rcases hrest with ⟨_, o, ho, hosel⟩ | ⟨hff, _⟩
    · obtain ⟨hocols, _, _⟩ := selectColumns_spec hosel
      refine ⟨o, ho, ?_⟩
      rw [hocols, hdfc]
      exact remainColumns_filter_eq file.header cols lc idxCol
    · rw [hrr] at hff
      exact absurd hff (by simp)
  · intro hrr
    rcases hrest with ⟨htt, _⟩ | ⟨_, hnone⟩
    · rw [hrr] at htt
      exact absurd htt (by simp)
    · exact hnone

/-- The loader output on fileE with index column i. -/
def outE : DataFrame × Option DataFrame × MaxUpdate :=
  (load_csv fileE (some "i") none ["a"] none true).getD (emptyDF, none, .keep)

/-- Witness for C6 amended at the concrete indexed file. -/
theorem remaining_columns_amended_witness :
    ∃ o, outE.2.1 = some o ∧
      o.colNames = remainSpec fileE.header ["a"] none (some "i") :=
  (remaining_columns_amended fileE (some "i") none ["a"] none true
      outE.1 outE.2.1 outE.2.2 (by decide) (by decide)).1 rfl

/-! ## Claim C7 -/

/-- C7 counterexample: with index_col "i" and index_selection [7, 3], the
loaded rows follow the selection order [7, 3], which is not sorted by
index ascending, so the sortedness conjunct of the claim is false as
stated for the loaded table. -/
theorem selection_order_counterexample :
    (load_csv fileD (some "i") (some [Cell.num 7, Cell.num 3]) ["v"] none true).map
        (fun t => rowIndex t.1) = some [Cell.num 7, Cell.num 3] ∧
    ¬ List.Sorted cellLeR [Cell.num 7, Cell.num 3] := by
  refine ⟨by decide, ?_⟩
  intro hs
  exact absurd ((List.sorted_cons.mp hs).1 (Cell.num 3) (by simp)) (by decide)

/-- C7 amended: if index_col is given (truthy), the indexing step indexes
the rows by that column (the index is a permutation of the file column
and carries its name) and sorts them ascending; when no index_selection
is applied the loaded table keeps that sorted form, while a nonempty
index_selection is authoritative for order and restricts the loaded
table to exactly the rows whose index values are in the selection;
without index_col the default index is labeled "index". -/
theorem index_and_selection_amended (file : CSV) (idxCol : Option String)
    (idxSel : Option (List Cell)) (cols : List String) (lc : Option String)
    (rr : Bool) (cd : DataFrame) (od : Option DataFrame) (mu : MaxUpdate)
    (h : load_csv file idxCol idxSel cols lc rr = some (cd, od, mu)) :
    ∃ dfB df, indexedBase file idxCol = some dfB ∧
      indexedData file idxCol idxSel = some df ∧
      cd.indexName = df.indexName ∧ df.indexName = dfB.indexName ∧
      rowIndex cd = rowIndex df ∧
      (∀ c, idxCol = some c → c ≠ "" →
        dfB.indexName = some c ∧
        (∃ vals, fileColumn file c = some vals ∧ (rowIndex dfB).Perm vals) ∧
        List.Sorted cellLeR (rowIndex dfB)) ∧
      (truthyS idxCol = false → dfB.indexName = some "index") ∧
      (truthyL idxSel = false → df = dfB) ∧
      (∀ sel, idxSel = some sel → sel ≠ [] →
        ∀ r, r ∈ df.rows ↔ r ∈ dfB.rows ∧ r.1 ∈ sel) := by
  obtain ⟨df, hdf, hmu, hcd, hrest⟩ := load_csv_eq h
  obtain ⟨dfB, hB, hcase⟩ := indexedData_eq hdf
  obtain ⟨_, hidxname, hri⟩ := selectColumns_spec hcd
  have hdfname : df.indexName = dfB.indexName := by
    rcases hcase with ⟨_, rfl⟩ | ⟨sel, _, _, hloc⟩
    · rfl
    · exact (locSelect_spec hloc).2.1
  refine ⟨dfB, df, hB, hdf, hidxname, hdfname, hri, ?_, ?_, ?_, ?_⟩
  · rintro c rfl hc
    obtain ⟨df0, h0, rfl⟩ := indexedBase_truthy hc hB
    obtain ⟨i, vals, hi, hname, hcols, hfc, hri0⟩ := setIndex_spec h0
    refine ⟨?_, ⟨vals, hfc, ?_⟩, sortRows_rowIndex_sorted df0⟩
    · rw [sortRows_indexName, hname]
    · rw [← hri0]
      exact sortRows_rowIndex_perm df0
  · intro hfalse
    have h2 : indexedBase file idxCol = some (defaultIndex file) :=
      indexedBase_not_truthy hfalse
    rw [h2] at hB
    obtain rfl : defaultIndex file = dfB := by simpa using hB
    rfl
  · intro hfalse
    rcases hcase with ⟨_, rfl⟩ | ⟨sel, hsel, hne, _⟩
    · rfl
    · rw [hsel] at hfalse
      simp only [truthyL, Bool.not_eq_false', List.isEmpty_iff] at hfalse
      exact absurd hfalse hne
  · rintro sel rfl hne r
    rcases hcase with ⟨hfalse, rfl⟩ | ⟨sel2, hsel2, _, hloc⟩
    · simp only [truthyL, Bool.not_eq_false', List.isEmpty_iff] at hfalse
      exact absurd hfalse hne
    · obtain rfl : sel2 = sel := by simpa using hsel2.symm
      exact (locSelect_spec hloc).2.2 r

/-- Witness for C7 amended: a concrete file with index column i and no
selection, where the full conclusion (indexing, permutation, sortedness,
default-label and selection conjuncts) is instantiated. -/
theorem index_and_selection_amended_witness :
    ∃ dfB df, indexedBase fileD (some "i") = some dfB ∧
      indexedData fileD (some "i") none = some df ∧
      outD.1.indexName = df.indexName ∧ df.indexName = dfB.indexName ∧
      rowIndex outD.1 = rowIndex df ∧
      (∀ c, (some "i" : Option String) = some c → c ≠ "" →
        dfB.indexName = some c ∧
        (∃ vals, fileColumn fileD c = some vals ∧ (rowIndex dfB).Perm vals) ∧
        List.Sorted cellLeR (rowIndex dfB)) ∧
      (truthyS (some "i") = false → dfB.indexName = some "index") ∧
      (truthyL none = false → df = dfB) ∧
      (∀ sel, (none : Option (List Cell)) = some sel → sel ≠ [] →
        ∀ r, r ∈ df.rows ↔ r ∈ dfB.rows ∧ r.1 ∈ sel) :=
  index_and_selection_amended fileD (some "i") none ["v"] none true
    outD.1 outD.2.1 outD.2.2 (by decide)

/-! ## Claim C5 -/

/-- C5 counterexample: the ChEMBL variant (one of the four non-index-based
variants) performs no rename step: loading it with the primary column foo
leaves the data column named foo instead of remapping it to
canonical_smiles, and the number of non-deprecated variants whose load
body renames is 3, not 4. -/
theorem rename_count_counterexample :
    (ChEMBLApprovedDrugsPhyschem.load fileCh (variantInit .chembl []) ["foo"]).map
        (fun s => s.data.map (fun d => d.colNames)) = some (some ["foo"]) ∧
    (["foo"] : List String) ≠ ["canonical_smiles"] ∧
    (nonDeprecatedVariants.filter performsRename).length ≠ 4 :=
  ⟨by decide, by decide, by decide⟩

/-- C5 amended: exactly three of the five non-deprecated variants
(Lipophilicity, ESOL, FreeSolv) perform a rename step in load(): each
remaps its single source column to canonical_smiles and its source
property names to the canonical properties_cols through its per-variant
name-to-name mapping; the ChEMBL variant subsets without renaming (its
data keeps exactly the requested source column names). -/
theorem rename_variants_exactly_three :
    (nonDeprecatedVariants.filter performsRename) =
      [Variant.lipophilicity, Variant.esol, Variant.freesolv] ∧
    (nonDeprecatedVariants.filter performsRename).length = 3 ∧
    (∀ v, performsRename v = true →
      ∀ kwargs file s1, variantLoad v file (variantInit v kwargs) = some s1 →
        (∃ d, s1.data = some d ∧ d.colNames = ["canonical_smiles"]) ∧
        (∃ p pc, s1.properties = some p ∧
          (variantInit v kwargs).properties_cols = some pc ∧ p.colNames = pc)) ∧
    (∀ cols file s s1, ChEMBLApprovedDrugsPhyschem.load file s cols = some s1 →
      ∃ d, s1.data = some d ∧ d.colNames = cols) := by
  refine ⟨rfl, rfl, ?_, ?_⟩
  · intro v hv kwargs file s1 h
    cases v with
    | lipophilicity =>
      obtain ⟨d, p3, pc, hd, hdc, hp, hpc, hpcols, _⟩ := renamingLoad_result h
      exact ⟨⟨d, hd, hdc⟩, ⟨p3, pc, hp, hpc, hpcols⟩⟩
    | esol =>
      obtain ⟨d, p3, pc, hd, hdc, hp, hpc, hpcols, _⟩ := renamingLoad_result h
      exact ⟨⟨d, hd, hdc⟩, ⟨p3, pc, hp, hpc, hpcols⟩⟩
    | freesolv =>
      obtain ⟨d, p3, pc, hd, hdc, hp, hpc, hpcols, _⟩ := renamingLoad_result h
      exact ⟨⟨d, hd, hdc⟩, ⟨p3, pc, hp, hpc, hpcols⟩⟩
    | chembl => simp [performsRename] at hv
    | zinc15 => simp [performsRename] at hv
    | chembl20k => simp [performsRename] at hv
  · intro cols file s s1 h
    obtain ⟨d, p2, pc, hd, hdc, _, _, _, _⟩ := chemblLoad_result h
    exact ⟨d, hd, hdc⟩

/-- Witness for C5 amended: the ChEMBL no-rename conjunct at a concrete
file whose primary column is named foo. -/
theorem rename_variants_exactly_three_witness :
    ∃ d, outCh.data = some d ∧ d.colNames = ["foo"] :=
  rename_variants_exactly_three.2.2.2 ["foo"] fileCh (variantInit .chembl []) outCh
    (by decide)

/-! ## Claim C9 -/

theorem loadCsv_again (t : Dataset) {file : CSV} {s : Dataset} {cols : List String}
    {lc : Option String} {rr : Bool} {cd : DataFrame} {od : Option DataFrame}
    {mu : MaxUpdate}
    (hic : t.index_col = s.index_col) (his : t.index_selection = s.index_selection)
    (hl : load_csv file s.index_col s.index_selection cols lc rr = some (cd, od, mu)) :
    GenericCSVDataset.loadCsv file t cols lc rr = some (applyMaxUpdate t mu, cd, od) := by
  unfold GenericCSVDataset.loadCsv
  rw [hic, his, hl]
  rfl

theorem simpleCsvLoad_idem {file : CSV} {s : Dataset} {cols : List String}
    {lc : Option String} {rr : Bool} {s1 : Dataset}
    (h : simpleCsvLoad file s cols lc rr = some s1) :
    simpleCsvLoad file s1 cols lc rr = some s1 := by
  obtain ⟨s0, cd, od, hl, rfl⟩ := simpleCsvLoad_eq h
  obtain ⟨mu, hload, rfl⟩ := loadCsv_eq hl
  have hic : ({ applyMaxUpdate s mu with data := some cd } : Dataset).index_col
      = s.index_col := by
    cases mu <;> rfl
  have his : ({ applyMaxUpdate s mu with data := some cd } : Dataset).index_selection
      = s.index_selection := by
    cases mu <;> rfl
  have h2 := loadCsv_again { applyMaxUpdate s mu with data := some cd } hic his hload
  unfold simpleCsvLoad
  rw [h2]
  cases mu <;> simp [applyMaxUpdate]

theorem chemblLoad_idem {file : CSV} {s : Dataset} {cols : List String} {s1 : Dataset}
    (h : ChEMBLApprovedDrugsPhyschem.load file s cols = some s1) :
    ChEMBLApprovedDrugsPhyschem.load file s1 cols = some s1 := by
  obtain ⟨s0, d, p, pc, p2, hl, hpc, hp2, rfl⟩ := chemblLoad_eq h
  obtain ⟨mu, hload, rfl⟩ := loadCsv_eq hl
  have hic : ({ applyMaxUpdate s mu with
      data := some d, properties := some p2 } : Dataset).index_col = s.index_col := by
    cases mu <;> rfl
  have his : ({ applyMaxUpdate s mu with
      data := some d, properties := some p2 } : Dataset).index_selection
      = s.index_selection := by
    cases mu <;> rfl
  have h2 := loadCsv_again
    { applyMaxUpdate s mu with data := some d, properties := some p2 } hic his hload
  have hpc2 : (applyMaxUpdate { applyMaxUpdate s mu with
      data := some d, properties := some p2 } mu).properties_cols = some pc := by
    cases mu <;> simpa [applyMaxUpdate] using hpc
  have hps : s.properties_cols = some pc := by
    cases mu <;> simpa [applyMaxUpdate] using hpc
  unfold ChEMBLApprovedDrugsPhyschem.load
  rw [h2]
  simp only [Option.some_bind, hpc2, hp2]
  cases mu <;> simp [applyMaxUpdate, hps]

theorem renamingLoad_idem {orig : List String} {file : CSV} {s : Dataset}
    {cols : List String} {s1 : Dataset}
    (h : renamingLoad orig file s cols = some s1) :
    renamingLoad orig file s1 cols = some s1 := by
  obtain ⟨s0, d, c0, p, pc, p3, hl, hc0, hpc, hp3, rfl⟩ := renamingLoad_eq h
  obtain ⟨mu, hload, rfl⟩ := loadCsv_eq hl
  have hic : ({ applyMaxUpdate s mu with
      data := some (renameColumns d [(c0, "canonical_smiles")])
      properties := some p3 } : Dataset).index_col = s.index_col := by
    cases mu <;> rfl
  have his : ({ applyMaxUpdate s mu with
      data := some (renameColumns d [(c0, "canonical_smiles")])
      properties := some p3 } : Dataset).index_selection = s.index_selection := by
    cases mu <;> rfl
  have h2 := loadCsv_again
    { applyMaxUpdate s mu with
      data := some (renameColumns d [(c0, "canonical_smiles")])
      properties := some p3 } hic his hload
  have hpc2 : (applyMaxUpdate { applyMaxUpdate s mu with
      data := some (renameColumns d [(c0, "canonical_smiles")])
      properties := some p3 } mu).properties_cols = some pc := by
    cases mu <;> simpa [applyMaxUpdate] using hpc
  have hps : s.properties_cols = some pc := by
    cases mu <;> simpa [applyMaxUpdate] using hpc
  unfold renamingLoad
  rw [h2]
  simp only [Option.some_bind, hc0, hpc2, hp3]
  cases mu <;> simp [applyMaxUpdate, hps]

/-- C9: for every descriptor variant and fixed file contents, load() is
idempotent on the instance state: loading the already-loaded state
reproduces it exactly, so calling load() twice yields the same data,
properties and max_len as calling it once, with no accumulation. -/
theorem load_idempotent (v : Variant) (file : CSV) (s s1 : Dataset)
    (h : variantLoad v file s = some s1) : variantLoad v file s1 = some s1 := by
  cases v
  case chembl => exact chemblLoad_idem h
  case lipophilicity => exact renamingLoad_idem h
  case esol => exact renamingLoad_idem h
  case freesolv => exact renamingLoad_idem h
  case zinc15 => exact simpleCsvLoad_idem h
  case chembl20k => exact simpleCsvLoad_idem h

/-- Witness for C9: reloading the loaded Lipophilicity descriptor
reproduces it exactly. -/
theorem load_idempotent_witness :
    variantLoad .lipophilicity fileA outA = some outA :=
  load_idempotent .lipophilicity fileA (variantInit .lipophilicity []) outA (by decide)

/-- Witness for C1: the Lipophilicity descriptor loaded from a concrete
file has data column canonical_smiles and properties column logD with a
matching row index. -/
theorem load_columns_exact_witness :
    ∃ d, outA.data = some d ∧ d.colNames = ["canonical_smiles"] ∧
      ∀ p, outA.properties = some p →
        ∃ pc, (variantInit .lipophilicity []).properties_cols = some pc ∧
          p.colNames = pc ∧ rowIndex p = rowIndex d :=
  load_columns_exact .lipophilicity [] fileA outA (by decide)

end ChemInf
